import Mathlib

/-
Verification of the StatiGo cache engine (package `cache`).

This file gives a shallow embedding, in Lean 4, of the cache core of the
StatiGo repository: the `Entry` record and its operations, the `Storage`
durable layer, the `Manager` two-tier coordinator, the `Revalidator`
schedule arithmetic, and the bulk-warming (`Bootstrap`) pipeline.  Each
definition is translated from the corresponding Go function; Go byte
slices become `List Nat` (each element < 256 for real slices), Go
`time.Time` values become `Int` epoch seconds, Go maps used as indices
become association lists, and fallible I/O is made explicit with
`Except`/fault flags.  Concurrency is linearised: the sequential
definitions thread state where the Go code updates shared state under
its locks/atomics.
-/

namespace Statigo

/-! ## Decimal rendering (Go `fmt.Sprintf("%d", ·)`)

`generateETag` feeds `fmt.Sprintf("%d:%d", generation, renderedAt.Unix())`
into the hash.  We render integers to their ASCII decimal byte codes,
most significant digit first, exactly as `%d` does. -/

/-- ASCII decimal digits of `n`, most significant first (byte codes 48..57).
Structural recursion on a fuel bound (any fuel > n suffices, since the
recursion divides by 10) keeps the definition kernel-computable. -/
def natDecimalGo (fuel : Nat) (n : Nat) : List Nat :=
  match fuel with
  | 0 => []
  | fuel + 1 =>
    if n < 10 then [48 + n]
    else natDecimalGo fuel (n / 10) ++ [48 + n % 10]

/-- ASCII decimal digits of `n`, most significant first. -/
def natDecimal (n : Nat) : List Nat := natDecimalGo (n + 1) n

/-- ASCII bytes of Go's `%d` for an `int64`: optional `-` (byte 45) then digits. -/
def intDecimal (i : Int) : List Nat :=
  if i < 0 then 45 :: natDecimal i.natAbs else natDecimal i.toNat

/-- Value of a most-significant-first ASCII digit list (decoder used only in proofs). -/
def decVal (l : List Nat) : Nat :=
  l.foldl (fun acc d => acc * 10 + (d - 48)) 0


/-! ## ETag fingerprint (`generateETag`, part_003 lines 86-92)

The Go code hashes `content ++ fmt.Sprintf("%d:%d", generation,
renderedAt.Unix())` with `crypto/sha256` and hex-encodes the digest. -/

/-- Modelled from the spec: the hash-then-hex step of `generateETag` uses the
Go standard library's `crypto/sha256` and `encoding/hex`, which are external
to this repository.  Spec §4.1 specifies the fingerprint so that distinct
`(content, generation, timestamp)` payloads must yield distinct fingerprints
(collision-resistance idealised); accordingly the external hash-then-hex step
is modelled as an injective, executable bytes-to-lowercase-hex encoding. -/
def sha256Hex (bs : List Nat) : String :=
  String.mk (bs.flatMap fun b => [Nat.digitChar (b / 16 % 16), Nat.digitChar (b % 16)])

/-- The byte payload that `generateETag` feeds to the hash:
`content` then the ASCII bytes of `fmt.Sprintf("%d:%d", generation, unixSeconds)`. -/
def etagPayload (content : List Nat) (generation : Int) (renderedAt : Int) : List Nat :=
  content ++ intDecimal generation ++ 58 :: intDecimal renderedAt

/-- `generateETag` (part_003): SHA-256-then-hex of the payload. -/
def generateETag (content : List Nat) (generation : Int) (renderedAt : Int) : String :=
  sha256Hex (etagPayload content generation renderedAt)


/-! ## Entry (part_003 lines 12-92)

Go byte slices are `List Nat` (elements < 256 for real slices), `time.Time`
is `Int` epoch seconds, and the `atomic.Bool` stale flag is a plain `Bool`
in this linearised model. -/

/-- `cache.Entry`: a cached page with metadata. -/
structure Entry where
  content : List Nat
  renderedAt : Int
  strategy : String
  etag : String
  requestPath : String
  generation : Int
  stale : Bool
deriving Repr, DecidableEq

/-- `NewEntry` (part_003): `time.Now()` is passed as `now`. -/
def NewEntry (content : List Nat) (strategy requestPath : String) (now : Int) : Entry :=
  { content := content
    renderedAt := now
    strategy := strategy
    etag := generateETag content 1 now
    requestPath := requestPath
    generation := 1
    stale := false }

/-- `Entry.IsStale`. -/
def Entry.IsStale (e : Entry) : Bool := e.stale

/-- `Entry.MarkStale`. -/
def Entry.MarkStale (e : Entry) : Entry := { e with stale := true }

/-- `Entry.MarkFresh`. -/
def Entry.MarkFresh (e : Entry) : Entry := { e with stale := false }

/-- `Entry.Update` (part_003 lines 54-63): overwrite content, advance
`renderedAt`, increment generation, recompute etag, keep the old request path
when the supplied one is empty, mark fresh. -/
def Entry.Update (e : Entry) (content : List Nat) (requestPath : String) (now : Int) : Entry :=
  { e with
    content := content
    renderedAt := now
    generation := e.generation + 1
    etag := generateETag content (e.generation + 1) now
    requestPath := if requestPath ≠ "" then requestPath else e.requestPath
    stale := false }

/-- 24 hours in seconds (`24 * time.Hour` at second granularity). -/
def hours24 : Int := 24 * 3600

/-- `Entry.ShouldRevalidate` (part_003 lines 66-84). -/
def Entry.ShouldRevalidate (e : Entry) (now : Int) : Bool :=
  -- Immutable entries never revalidate
  if e.strategy = "immutable" then false
  -- If marked stale, should revalidate
  else if e.IsStale then true
  -- Incremental entries revalidate if older than 24 hours
  else if e.strategy = "incremental" then decide (now - e.renderedAt > hours24)
  -- Static entries only revalidate when explicitly marked stale
  else false

/-! ## Brotli codec (part_002 lines 396-423) -/

/-- Length of the leading run of byte `b` in a list. -/
def countRun (b : Nat) : List Nat → Nat
  | [] => 0
  | c :: rest => if c = b then countRun b rest + 1 else 0

/-- Modelled from the spec: the Brotli codec itself
(`github.com/andybalholm/brotli`) is external to this repository; spec §4.2
specifies it only as a compressor whose compress/decompress "must be exact
round-trip inverses".  It is modelled as an executable run-length codec with
that property: a run of `k+1 ≤ 255` equal bytes becomes the pair `k+1, b`. -/
def rleCompressGo (fuel : Nat) (l : List Nat) : List Nat :=
  match fuel, l with
  | 0, _ => []
  | _, [] => []
  | fuel + 1, b :: rest =>
    (min 254 (countRun b rest) + 1) :: b ::
      rleCompressGo fuel (rest.drop (min 254 (countRun b rest)))

/-- Entry point: fuel `l.length` always suffices (each step consumes at
least one element). -/
def rleCompress (l : List Nat) : List Nat := rleCompressGo l.length l

/-- Inverse of `rleCompress`. -/
def rleDecompress : List Nat → List Nat
  | k :: b :: rest => List.replicate k b ++ rleDecompress rest
  | _ => []

/-- `CompressBrotli` (part_002): with a `bytes.Buffer` sink the wrapper's
error branches are unreachable, so it returns the compressed bytes. -/
def CompressBrotli (content : List Nat) : Except String (List Nat) :=
  .ok (rleCompress content)

/-- `DecompressBrotli` (part_002). -/
def DecompressBrotli (compressed : List Nat) : Except String (List Nat) :=
  .ok (rleDecompress compressed)


/-! ## Association lists

The cache directory (file name ↦ bytes) and the Manager's `sync.Map`
(cache key ↦ Entry) are both modelled as association lists with
replace-on-store semantics. -/

/-- Look up the first binding of `k`. -/
def alistGet {α : Type} (l : List (String × α)) (k : String) : Option α :=
  match l with
  | [] => none
  | (n, v) :: rest => if n = k then some v else alistGet rest k

/-- Store `v` under `k`, replacing an existing binding. -/
def alistSet {α : Type} (l : List (String × α)) (k : String) (v : α) : List (String × α) :=
  match l with
  | [] => [(k, v)]
  | (n, w) :: rest => if n = k then (k, v) :: rest else (n, w) :: alistSet rest k v

/-- Remove every binding of `k`. -/
def alistRemove {α : Type} (l : List (String × α)) (k : String) : List (String × α) :=
  match l with
  | [] => []
  | (n, v) :: rest => if n = k then alistRemove rest k else (n, v) :: alistRemove rest k

/-! ## Storage (part_002 lines 295-437)

The cache directory is a map from file name to file bytes.  `os` I/O
failures are modelled by explicit fault flags on each operation. -/

/-- The cache directory: file name ↦ file bytes. -/
abbrev Disk := List (String × List Nat)

/-- `getCacheFileName` (part_002 lines 425-437): `/` → `_`, `:` → `_`,
then one leading `_` stripped (`strings.TrimPrefix`). -/
def getCacheFileName (cacheKey : String) : String :=
  let s1 := cacheKey.toList.map fun c => if c = '/' then '_' else c
  let s2 := s1.map fun c => if c = ':' then '_' else c
  match s2 with
  | '_' :: rest => String.mk rest
  | l => String.mk l

/-- `Storage.Write` (part_002 lines 313-333): writes `<name>.br` then
`<name>.html`; an `os.WriteFile` failure (a fault flag here) aborts with an
error, leaving that file unwritten. -/
def Storage.Write (d : Disk) (cacheKey : String)
    (compressedContent uncompressedContent : List Nat)
    (brWriteFault htmlWriteFault : Bool) : Disk × Except String Unit :=
  let fileName := getCacheFileName cacheKey
  if brWriteFault then (d, .error "failed to write brotli cache file")
  else
    let d1 := alistSet d (fileName ++ ".br") compressedContent
    if htmlWriteFault then (d1, .error "failed to write HTML cache file")
    else (alistSet d1 (fileName ++ ".html") uncompressedContent, .ok ())

/-- `Storage.ReadBrotli` (part_002 lines 335-349): errors if the `.br` file is
absent or the read faults. -/
def Storage.ReadBrotli (d : Disk) (cacheKey : String) (readFault : Bool) :
    Except String (List Nat) :=
  if readFault then .error "failed to read brotli cache file"
  else
    match alistGet d (getCacheFileName cacheKey ++ ".br") with
    | some content => .ok content
    | none => .error "failed to read brotli cache file"

/-- `Storage.ReadHTML` (part_002 lines 351-365). -/
def Storage.ReadHTML (d : Disk) (cacheKey : String) (readFault : Bool) :
    Except String (List Nat) :=
  if readFault then .error "failed to read HTML cache file"
  else
    match alistGet d (getCacheFileName cacheKey ++ ".html") with
    | some content => .ok content
    | none => .error "failed to read HTML cache file"

/-- `Storage.Exists` (part_002 lines 367-377): `os.Stat` on the `.br` file. -/
def Storage.Exists (d : Disk) (cacheKey : String) : Bool :=
  (alistGet d (getCacheFileName cacheKey ++ ".br")).isSome

/-- `Storage.Delete` (part_002 lines 379-394): removes both files ignoring
`os.Remove` errors (`_ = os.Remove(...)`), always returns nil.  A remove
fault leaves the file in place but is still ignored. -/
def Storage.Delete (d : Disk) (cacheKey : String)
    (brRemoveFault htmlRemoveFault : Bool) : Disk × Except String Unit :=
  let fileName := getCacheFileName cacheKey
  let d1 := if brRemoveFault then d else alistRemove d (fileName ++ ".br")
  let d2 := if htmlRemoveFault then d1 else alistRemove d1 (fileName ++ ".html")
  (d2, .ok ())

/-! ## Manager (part_003 lines 197-444) -/

/-- The Manager's mutable state: the in-memory `sync.Map` of entries and the
`Storage` directory. -/
structure ManagerState where
  entries : List (String × Entry)
  disk : Disk
deriving Repr, DecidableEq

/-- `Manager.loadFromDisk` (part_003 lines 422-444): reconstruct an Entry
from the durable compressed bytes (generation 1, fresh, strategy `static`,
empty request path). -/
def Manager.loadFromDisk (st : ManagerState) (cacheKey : String) (readFault : Bool)
    (now : Int) : Except String Entry :=
  match Storage.ReadBrotli st.disk cacheKey readFault with
  | .error e => .error ("failed to read brotli cache: " ++ e)
  | .ok compressedContent =>
    .ok { content := compressedContent
          renderedAt := now
          strategy := "static"
          etag := generateETag compressedContent 1 now
          requestPath := ""
          generation := 1
          stale := false }

/-- `Manager.Get` (part_003 lines 219-243): memory first; on miss, check
durable existence, reconstruct, populate memory; a durable read failure is
logged and returned as a miss. -/
def Manager.Get (st : ManagerState) (cacheKey : String) (readFault : Bool)
    (now : Int) : Option Entry × ManagerState :=
  match alistGet st.entries cacheKey with
  | some entry => (some entry, st)
  | none =>
    if Storage.Exists st.disk cacheKey then
      match Manager.loadFromDisk st cacheKey readFault now with
      | .error _ => (none, st)
      | .ok entry => (some entry, { st with entries := alistSet st.entries cacheKey entry })
    else (none, st)

/-- `Manager.set` (part_003 lines 255-309).  The external compression call's
outcome is `compOutcome` (when the library succeeds it is
`CompressBrotli uncompressedContent`); on a compression error the code falls
back to the uncompressed bytes.  The durable write — performed inline when
`syncWrite` and in a goroutine otherwise, linearised here to completion in
both cases — is applied with its fault flags and its error is logged and
discarded.  The function itself always returns nil. -/
def Manager.setCore (st : ManagerState) (cacheKey : String)
    (uncompressedContent : List Nat) (strategy requestPath : String)
    (syncWrite : Bool) (compOutcome : Except String (List Nat))
    (brWriteFault htmlWriteFault : Bool) (now : Int) :
    ManagerState × Except String Unit :=
  let compressedContent := match compOutcome with
    | .ok c => c
    | .error _ => uncompressedContent
  let entries' := match alistGet st.entries cacheKey with
    | some existingEntry =>
      alistSet st.entries cacheKey (existingEntry.Update compressedContent requestPath now)
    | none =>
      alistSet st.entries cacheKey (NewEntry compressedContent strategy requestPath now)
  let disk' := (Storage.Write st.disk cacheKey compressedContent uncompressedContent
    brWriteFault htmlWriteFault).1
  let _ := syncWrite
  ({ entries := entries', disk := disk' }, .ok ())

/-- `Manager.Set` (asynchronous durable write). -/
def Manager.Set (st : ManagerState) (cacheKey : String) (uncompressedContent : List Nat)
    (strategy requestPath : String) (compOutcome : Except String (List Nat))
    (brWriteFault htmlWriteFault : Bool) (now : Int) :
    ManagerState × Except String Unit :=
  Manager.setCore st cacheKey uncompressedContent strategy requestPath false
    compOutcome brWriteFault htmlWriteFault now

/-- `Manager.SetSync` (synchronous durable write). -/
def Manager.SetSync (st : ManagerState) (cacheKey : String) (uncompressedContent : List Nat)
    (strategy requestPath : String) (compOutcome : Except String (List Nat))
    (brWriteFault htmlWriteFault : Bool) (now : Int) :
    ManagerState × Except String Unit :=
  Manager.setCore st cacheKey uncompressedContent strategy requestPath true
    compOutcome brWriteFault htmlWriteFault now

/-- `Manager.Delete` (part_003 lines 311-320). -/
def Manager.Delete (st : ManagerState) (cacheKey : String)
    (brRemoveFault htmlRemoveFault : Bool) : ManagerState × Except String Unit :=
  let entries' := alistRemove st.entries cacheKey
  let (disk', r) := Storage.Delete st.disk cacheKey brRemoveFault htmlRemoveFault
  match r with
  | .error e =>
    ({ entries := entries', disk := disk' }, .error ("failed to delete cache from disk: " ++ e))
  | .ok _ => ({ entries := entries', disk := disk' }, .ok ())

/-- The `entries.Range` body of `Manager.MarkStale` (part_003 lines 322-362):
returns the updated index, the count, and the `staleEntries` list collected
when `eager` (handed to `eagerRevalidate` in a goroutine). -/
def Manager.markStaleRange (entries : List (String × Entry)) (strategy : String)
    (eager : Bool) : List (String × Entry) × Nat × List Entry :=
  match entries with
  | [] => ([], 0, [])
  | (k, e) :: rest =>
    let (rest', count, staleList) := Manager.markStaleRange rest strategy eager
    if e.strategy = "immutable" then ((k, e) :: rest', count, staleList)
    else if e.strategy = strategy then
      ((k, e.MarkStale) :: rest', count + 1,
        if eager then e.MarkStale :: staleList else staleList)
    else ((k, e) :: rest', count, staleList)

/-- `Manager.MarkStale` (part_003 lines 322-362). -/
def Manager.MarkStale (st : ManagerState) (strategy : String) (eager : Bool) :
    ManagerState × Nat × List Entry :=
  let (entries', count, staleList) := Manager.markStaleRange st.entries strategy eager
  ({ st with entries := entries' }, count, staleList)

/-- The `entries.Range` body of `Manager.MarkAllStale` (part_003 lines 364-396). -/
def Manager.markAllStaleRange (entries : List (String × Entry)) (eager : Bool) :
    List (String × Entry) × Nat × List Entry :=
  match entries with
  | [] => ([], 0, [])
  | (k, e) :: rest =>
    let (rest', count, staleList) := Manager.markAllStaleRange rest eager
    if e.strategy = "immutable" then ((k, e) :: rest', count, staleList)
    else
      ((k, e.MarkStale) :: rest', count + 1,
        if eager then e.MarkStale :: staleList else staleList)

/-- `Manager.MarkAllStale` (part_003 lines 364-396). -/
def Manager.MarkAllStale (st : ManagerState) (eager : Bool) :
    ManagerState × Nat × List Entry :=
  let (entries', count, staleList) := Manager.markAllStaleRange st.entries eager
  ({ st with entries := entries' }, count, staleList)

/-! ## Cache key derivation (part_003 lines 398-408) -/

/-- The `\x7b` character (written by code point to keep brace characters out
of the literals). -/
def lbrace : Char := Char.ofNat 123

/-- The `\x7d` character. -/
def rbrace : Char := Char.ofNat 125

/-- `strings.ReplaceAll` on character lists, for a non-empty pattern
`p :: ps`: leftmost-match, non-overlapping.  Structural recursion on a fuel
bound; fuel `l.length` suffices since each step consumes at least one
character. -/
def replaceAllGo (p : Char) (ps rep : List Char) (fuel : Nat) (l : List Char) : List Char :=
  match fuel, l with
  | 0, _ => []
  | _, [] => []
  | fuel + 1, c :: rest =>
    if (p :: ps).isPrefixOf (c :: rest) then
      rep ++ replaceAllGo p ps rep fuel (rest.drop ps.length)
    else c :: replaceAllGo p ps rep fuel rest

/-- `strings.ReplaceAll` (the patterns used here are never empty). -/
def stringReplaceAll (s pat rep : String) : String :=
  match pat.toList with
  | [] => s
  | p :: ps => String.mk (replaceAllGo p ps rep.toList s.toList.length s.toList)

/-- `GetCacheKey` (part_003 lines 398-408): substitute each `\x7bparam\x7d`
placeholder, then append `":" ++ lang`.  Go map iteration order is
arbitrary; the model applies the parameter list in order. -/
def GetCacheKey (canonical lang : String) (pathParams : List (String × String)) : String :=
  let key := pathParams.foldl
    (fun key pv =>
      stringReplaceAll key (String.mk (lbrace :: pv.1.toList ++ [rbrace])) pv.2)
    canonical
  key ++ ":" ++ lang

/-! ## Revalidator (part_003 lines 100-184)

`Start` computes the next occurrence of the configured hour of day, sleeps
until it, fires, then fires every 24 h on a ticker.  Local civil time is
modelled as epoch seconds in a fixed-offset location, so
`time.Date(y, m, d, hour, 0, 0, 0, loc)` is the current day's start plus
`hour` hours. -/

/-- The first firing instant computed by `Revalidator.Start` (part_003 lines
124-131): today at `revalidationHour`, pushed to tomorrow when that instant
is strictly before `now` (`next.Before(now)`). -/
def nextRevalidation (now : Int) (revalidationHour : Nat) : Int :=
  let todayAt := now - now % 86400 + revalidationHour * 3600
  if todayAt < now then todayAt + 86400 else todayAt

/-- The `n`-th firing instant of the started revalidator, as the code
schedules it: the initial delay expires at `nextRevalidation`, which gives
the first firing; but `time.NewTicker(24 * time.Hour)` is created at `Start`
time (part_003 line 142), before the goroutine sleeps the initial delay, so
tick `n` arrives at `now + n * 86400` — each subsequent firing happens at
`Start`'s time of day, not 24 hours after the previous firing. -/
def firingTime (now : Int) (revalidationHour : Nat) : Nat → Int
  | 0 => nextRevalidation now revalidationHour
  | n + 1 => now + (n + 1) * 86400

/-- `Revalidator.revalidateIncremental` (part_003 lines 172-184): each firing
calls `Manager.MarkStale("incremental", true)`. -/
def Revalidator.revalidateIncremental (st : ManagerState) : ManagerState × Nat × List Entry :=
  Manager.MarkStale st "incremental" true

/-! ## Bulk warming (part_002 lines 17-281)

The worker pool over the route channel is linearised to a fold over the
route catalog (the counter is a sum of per-route contributions, which
commute).  The external router is the oracle
`render : String → Option (List Nat)`: `some body` models a 200 response
from `makeCacheRequest`, `none` a non-OK status. -/

/-- `RouteConfig` (part_002 lines 17-22). -/
structure RouteConfig where
  canonical : String
  paths : List (String × String)
  strategy : String
deriving Repr, DecidableEq

/-- The body of one per-language goroutine of `Manager.cacheStaticRoute`
(part_002 lines 212-258), after the skip-if-cached check: resolve the
language path (a missing key reads as `""`), render through the router, and
store synchronously; each failure is logged and contributes 0. -/
def Manager.renderAndStore (st : ManagerState) (route : RouteConfig) (cacheKey : String)
    (render : String → Option (List Nat)) (now : Int) (lang : String) :
    ManagerState × Nat :=
  let path := match alistGet route.paths lang with
    | some p => p
    | none => ""
  if path = "" then (st, 0)
  else
    match render path with
    | none => (st, 0)
    | some content =>
      match Manager.SetSync st cacheKey content route.strategy path
        (CompressBrotli content) false false now with
      | (st', .ok _) => (st', 1)
      | (st', .error _) => (st', 0)

/-- One per-language task of `Manager.cacheStaticRoute` (part_002 lines
212-258): unless force-rebuilding, a key already found by `Manager.Get` is
skipped. -/
def Manager.processLang (st : ManagerState) (route : RouteConfig) (forceRebuild : Bool)
    (render : String → Option (List Nat)) (now : Int) (lang : String) :
    ManagerState × Nat :=
  let cacheKey := GetCacheKey route.canonical lang []
  if forceRebuild then Manager.renderAndStore st route cacheKey render now lang
  else
    match Manager.Get st cacheKey false now with
    | (some _, st') => (st', 0)
    | (none, st') => Manager.renderAndStore st' route cacheKey render now lang

/-- `Manager.cacheStaticRoute` (part_002 lines 207-263): every configured
language, counted with the atomic counter; always returns a nil error. -/
def Manager.cacheStaticRoute (st : ManagerState) (route : RouteConfig)
    (langs : List String) (forceRebuild : Bool)
    (render : String → Option (List Nat)) (now : Int) : ManagerState × Nat :=
  langs.foldl
    (fun acc lang =>
      let (st', n) := Manager.processLang acc.1 route forceRebuild render now lang
      (st', acc.2 + n))
    (st, 0)

/-- The worker body of `Manager.Bootstrap` (part_002 lines 77-108): dynamic
routes are skipped, parameterised canonical paths (containing `\x7b`) are
processed as no-ops contributing 0, and a `cacheStaticRoute` error would be
logged and skipped (its error branch is unreachable: it always returns nil). -/
def Manager.processRoute (st : ManagerState) (langs : List String) (forceRebuild : Bool)
    (render : String → Option (List Nat)) (now : Int) (route : RouteConfig) :
    ManagerState × Nat :=
  if route.strategy = "dynamic" then (st, 0)
  else if route.canonical.toList.contains lbrace then (st, 0)
  else Manager.cacheStaticRoute st route langs forceRebuild render now

/-- `Manager.Bootstrap` (part_002 lines 47-128), from the parsed route
catalog: the worker pool accumulates `totalCached` across all routes. -/
def Manager.Bootstrap (st : ManagerState) (routes : List RouteConfig)
    (langs : List String) (forceRebuild : Bool)
    (render : String → Option (List Nat)) (now : Int) : ManagerState × Nat :=
  routes.foldl
    (fun acc route =>
      let (st', n) := Manager.processRoute acc.1 langs forceRebuild render now route
      (st', acc.2 + n))
    (st, 0)

/-! ## Concrete catalog for the end-to-end warming scenario (spec §8) -/

/-- A 2-language static route (`/about`). -/
def exampleStaticRoute : RouteConfig :=
  { canonical := "/about"
    paths := [("en", "/about"), ("tr", "/hakkinda")]
    strategy := "static" }

/-- A 2-language dynamic route (`/search`), never cached. -/
def exampleDynamicRoute : RouteConfig :=
  { canonical := "/search"
    paths := [("en", "/search"), ("tr", "/ara")]
    strategy := "dynamic" }

/-- A router oracle answering 200 with a fixed body on every path. -/
def exampleRender : String → Option (List Nat) := fun _ => some [104, 105]

/-- The empty Manager state (fresh `NewManager` on an empty cache dir). -/
def emptyState : ManagerState := { entries := [], disk := [] }

/-- A memory-resident immutable entry. -/
def immutableEntry : Entry :=
  { content := [1], renderedAt := 0, strategy := "immutable", etag := "e1",
    requestPath := "/i", generation := 1, stale := false }

/-- A memory-resident incremental entry. -/
def incrementalEntry : Entry :=
  { content := [2], renderedAt := 0, strategy := "incremental", etag := "e2",
    requestPath := "/n", generation := 1, stale := false }

/-- A Manager state holding one immutable and one incremental entry. -/
def exampleMixedState : ManagerState :=
  { entries := [("a", immutableEntry), ("b", incrementalEntry)], disk := [] }


/-! ## Decimal-rendering, fingerprint and codec lemmas -/

theorem decVal_natDecimalGo : ∀ fuel n : Nat, n < fuel → decVal (natDecimalGo fuel n) = n := by
  intro fuel
  induction fuel with
  | zero => intro n h; omega
  | succ fuel ih =>
    intro n h
    rw [natDecimalGo]
    split
    · next h10 => simp [decVal]
    · next h10 =>
      have hself : n / 10 < n := Nat.div_lt_self (by omega) (by omega)
      have hih := ih (n / 10) (by omega)
      simp only [decVal, List.foldl_append] at hih ⊢
      rw [hih]
      have hm : n % 10 < 10 := Nat.mod_lt _ (by omega)
      simp only [List.foldl_cons, List.foldl_nil]
      omega

theorem decVal_natDecimal (n : Nat) : decVal (natDecimal n) = n :=
  decVal_natDecimalGo (n + 1) n (Nat.lt_succ_self n)

theorem natDecimal_injective : Function.Injective natDecimal := by
  intro a b h
  have := congrArg decVal h
  rwa [decVal_natDecimal, decVal_natDecimal] at this

theorem natDecimalGo_mem_range :
    ∀ fuel n d : Nat, d ∈ natDecimalGo fuel n → 48 ≤ d ∧ d ≤ 57 := by
  intro fuel
  induction fuel with
  | zero => intro n d hd; simp [natDecimalGo] at hd
  | succ fuel ih =>
    intro n d hd
    rw [natDecimalGo] at hd
    split at hd
    · next h => simp at hd; omega
    · next h =>
      rcases List.mem_append.mp hd with h1 | h2
      · exact ih (n / 10) d h1
      · have : n % 10 < 10 := Nat.mod_lt _ (by omega)
        simp at h2; omega

theorem natDecimal_mem_range {n d : Nat} (hd : d ∈ natDecimal n) :
    48 ≤ d ∧ d ≤ 57 :=
  natDecimalGo_mem_range (n + 1) n d hd

theorem natDecimal_ne_nil (n : Nat) : natDecimal n ≠ [] := by
  rw [natDecimal, natDecimalGo]; split <;> simp

theorem intDecimal_mem_range {i : Int} {d : Nat} (hd : d ∈ intDecimal i) :
    d = 45 ∨ (48 ≤ d ∧ d ≤ 57) := by
  unfold intDecimal at hd
  split at hd
  · rcases List.mem_cons.mp hd with h | h
    · exact Or.inl h
    · exact Or.inr (natDecimal_mem_range h)
  · exact Or.inr (natDecimal_mem_range hd)

theorem intDecimal_injective : Function.Injective intDecimal := by
  intro a b h
  unfold intDecimal at h
  split at h <;> split at h
  · next ha hb =>
    have := natDecimal_injective (List.cons_injective h)
    omega
  · next ha hb =>
    exfalso
    have h45 : (45 : Nat) ∈ natDecimal b.toNat := by rw [← h]; simp
    have := natDecimal_mem_range h45
    omega
  · next ha hb =>
    exfalso
    have h45 : (45 : Nat) ∈ natDecimal a.toNat := by rw [h]; simp
    have := natDecimal_mem_range h45
    omega
  · next ha hb =>
    have := natDecimal_injective h
    omega

theorem colon_not_mem_intDecimal (i : Int) : (58 : Nat) ∉ intDecimal i := by
  intro h
  rcases intDecimal_mem_range h with h | h <;> omega

/-- Splitting a byte list at a separator byte absent from both heads. -/
theorem colon_split {x y : List Nat} :
    ∀ u v : List Nat, (58 : Nat) ∉ u → (58 : Nat) ∉ v →
      u ++ 58 :: x = v ++ 58 :: y → u = v ∧ x = y := by
  intro u
  induction u with
  | nil =>
    intro v _ hv h
    cases v with
    | nil => simpa using h
    | cons b vs =>
      exfalso
      simp only [List.nil_append, List.cons_append, List.cons.injEq] at h
      exact hv (h.1 ▸ List.mem_cons_self b vs)
  | cons a us ih =>
    intro v hu hv h
    cases v with
    | nil =>
      exfalso
      simp only [List.cons_append, List.nil_append, List.cons.injEq] at h
      exact hu (h.1 ▸ List.mem_cons_self a us)
    | cons b vs =>
      simp only [List.cons_append, List.cons.injEq] at h
      have hu' : (58 : Nat) ∉ us := fun hm => hu (List.mem_cons_of_mem _ hm)
      have hv' : (58 : Nat) ∉ vs := fun hm => hv (List.mem_cons_of_mem _ hm)
      obtain ⟨h1, h2⟩ := ih vs hu' hv' h.2
      exact ⟨by rw [h.1, h1], h2⟩
theorem digitChar_inj_on_16 :
    ∀ x : Fin 16, ∀ y : Fin 16, Nat.digitChar x = Nat.digitChar y → x = y := by
  decide

theorem sha256Hex_injOn {as bs : List Nat} (ha : ∀ b ∈ as, b < 256)
    (hb : ∀ b ∈ bs, b < 256) (h : sha256Hex as = sha256Hex bs) : as = bs := by
  unfold sha256Hex at h
  replace h := congrArg String.data h
  simp only [] at h
  induction as generalizing bs with
  | nil => cases bs with
    | nil => rfl
    | cons b tb => simp at h
  | cons a ta ih =>
    cases bs with
    | nil => simp at h
    | cons b tb =>
      simp only [List.flatMap_cons, List.cons_append, List.nil_append,
        List.cons.injEq] at h
      obtain ⟨h1, h2, h3⟩ := h
      have ha' : a < 256 := ha a (List.mem_cons_self _ _)
      have hb' : b < 256 := hb b (List.mem_cons_self _ _)
      have e1 : a / 16 % 16 = b / 16 % 16 := by
        have := digitChar_inj_on_16 ⟨a / 16 % 16, Nat.mod_lt _ (by omega)⟩
          ⟨b / 16 % 16, Nat.mod_lt _ (by omega)⟩ h1
        simpa using this
      have e2 : a % 16 = b % 16 := by
        have := digitChar_inj_on_16 ⟨a % 16, Nat.mod_lt _ (by omega)⟩
          ⟨b % 16, Nat.mod_lt _ (by omega)⟩ h2
        simpa using this
      have hab : a = b := by omega
      have htail : ta = tb :=
        ih (fun x hx => ha x (List.mem_cons_of_mem _ hx))
          (fun x hx => hb x (List.mem_cons_of_mem _ hx)) h3
      rw [hab, htail]

/-- Same content, different `(generation, renderedAt)` ⇒ different payload. -/
theorem etagPayload_ne_of_gen_ne {content : List Nat} {g g' t t' : Int}
    (hg : g ≠ g') : etagPayload content g t ≠ etagPayload content g' t' := by
  intro h
  unfold etagPayload at h
  rw [List.append_assoc, List.append_assoc] at h
  have h2 := List.append_cancel_left h
  have := colon_split (intDecimal g) (intDecimal g')
    (colon_not_mem_intDecimal g) (colon_not_mem_intDecimal g') h2
  exact hg (intDecimal_injective this.1)
theorem take_eq_replicate_of_le_countRun :
    ∀ (l : List Nat) (b k : Nat), k ≤ countRun b l → l.take k = List.replicate k b := by
  intro l
  induction l with
  | nil =>
    intro b k hk
    simp [countRun] at hk
    simp [hk]
  | cons c rest ih =>
    intro b k hk
    cases k with
    | zero => simp
    | succ k' =>
      simp only [countRun] at hk
      split at hk
      · next hc =>
        subst hc
        simp only [List.take_succ_cons, List.replicate_succ, List.cons.injEq, true_and]
        exact ih c k' (by omega)
      · omega

theorem rleDecompress_rleCompressGo :
    ∀ fuel : Nat, ∀ l : List Nat, l.length ≤ fuel →
      rleDecompress (rleCompressGo fuel l) = l := by
  intro fuel
  induction fuel with
  | zero =>
    intro l hl
    have : l = [] := List.eq_nil_of_length_eq_zero (by omega)
    subst this
    rfl
  | succ n ih =>
    intro l hl
    cases l with
    | nil => rfl
    | cons b rest =>
      rw [rleCompressGo]
      have hk : min 254 (countRun b rest) ≤ countRun b rest := min_le_right _ _
      have htake := take_eq_replicate_of_le_countRun rest b _ hk
      have hlen : (rest.drop (min 254 (countRun b rest))).length ≤ n := by
        simp only [List.length_cons] at hl
        simp only [List.length_drop]
        omega
      rw [rleDecompress, ih _ hlen, List.replicate_succ, List.cons_append, ← htake,
        List.take_append_drop]

theorem rleDecompress_rleCompress (l : List Nat) : rleDecompress (rleCompress l) = l :=
  rleDecompress_rleCompressGo l.length l le_rfl
/-! ## Association-list lemmas -/

theorem alistGet_alistSet_self {α : Type} (l : List (String × α)) (k : String) (v : α) :
    alistGet (alistSet l k v) k = some v := by
  induction l with
  | nil => simp [alistGet, alistSet]
  | cons nv rest ih =>
    obtain ⟨n, w⟩ := nv
    by_cases hn : n = k
    · simp [alistGet, alistSet, hn]
    · simp [alistGet, alistSet, hn, ih]

theorem alistGet_alistSet_ne {α : Type} (l : List (String × α)) (k k' : String) (v : α)
    (h : k ≠ k') : alistGet (alistSet l k v) k' = alistGet l k' := by
  induction l with
  | nil => simp [alistGet, alistSet, h]
  | cons nv rest ih =>
    obtain ⟨n, w⟩ := nv
    by_cases hn : n = k
    · subst hn
      simp [alistGet, alistSet, h]
    · simp only [alistSet, if_neg hn]
      by_cases hn' : n = k'
      · simp [alistGet, hn']
      · simp [alistGet, hn', ih]

theorem alistGet_alistRemove_self {α : Type} (l : List (String × α)) (k : String) :
    alistGet (alistRemove l k) k = none := by
  induction l with
  | nil => simp [alistGet, alistRemove]
  | cons nv rest ih =>
    obtain ⟨n, w⟩ := nv
    by_cases hn : n = k
    · simpa [alistRemove, hn] using ih
    · simpa [alistRemove, alistGet, hn] using ih

theorem alistGet_alistRemove_ne {α : Type} (l : List (String × α)) (k k' : String)
    (h : k ≠ k') : alistGet (alistRemove l k) k' = alistGet l k' := by
  induction l with
  | nil => simp [alistGet, alistRemove]
  | cons nv rest ih =>
    obtain ⟨n, w⟩ := nv
    by_cases hn : n = k
    · subst hn
      simp [alistRemove, alistGet, h, Ne.symm h, ih]
    · by_cases hn' : n = k'
      · simp [alistRemove, alistGet, hn, hn', h, Ne.symm h]
      · simp [alistRemove, alistGet, hn, hn', ih]

theorem string_append_length (s t : String) : (s ++ t).length = s.length + t.length := by
  simp [String.length_append]

theorem br_ne_html (s : String) : s ++ ".br" ≠ s ++ ".html" := by
  intro h
  have := congrArg String.length h
  rw [string_append_length, string_append_length] at this
  have h3 : String.length ".br" = 2 + 1 := by rfl
  have h5 : String.length ".html" = 4 + 1 := by rfl
  omega

/-! ## Payload byte-range lemma -/

theorem etagPayload_lt_256 {content : List Nat} (h : ∀ b ∈ content, b < 256)
    (g t : Int) : ∀ b ∈ etagPayload content g t, b < 256 := by
  intro b hb
  unfold etagPayload at hb
  rw [List.mem_append] at hb
  rcases hb with h1 | h4
  · rw [List.mem_append] at h1
    rcases h1 with h2 | h3
    · exact h b h2
    · rcases intDecimal_mem_range h3 with h5 | h5 <;> omega
  · rcases List.mem_cons.mp h4 with h5 | h5
    · omega
    · rcases intDecimal_mem_range h5 with h6 | h6 <;> omega

/-! ## MarkStale range characterisation -/

theorem markStaleRange_spec (entries : List (String × Entry)) (strategy : String)
    (eager : Bool) :
    (Manager.markStaleRange entries strategy eager).1 =
      entries.map (fun ke =>
        if ke.2.strategy ≠ "immutable" ∧ ke.2.strategy = strategy
        then (ke.1, ke.2.MarkStale) else ke) ∧
    (Manager.markStaleRange entries strategy eager).2.1 =
      entries.countP (fun ke =>
        decide (ke.2.strategy ≠ "immutable" ∧ ke.2.strategy = strategy)) := by
  induction entries with
  | nil => simp [Manager.markStaleRange]
  | cons ke rest ih =>
    obtain ⟨k, e⟩ := ke
    by_cases himm : e.strategy = "immutable"
    · simp [Manager.markStaleRange, himm, ih.1, ih.2, List.countP_cons]
    · by_cases hmatch : e.strategy = strategy
      · have hs : ¬strategy = "immutable" := fun hcontra => himm (hmatch.trans hcontra)
        simp [Manager.markStaleRange, himm, hmatch, hs, ih.1, ih.2, List.countP_cons]
      · simp [Manager.markStaleRange, himm, hmatch, ih.1, ih.2, List.countP_cons]

theorem markAllStaleRange_spec (entries : List (String × Entry)) (eager : Bool) :
    (Manager.markAllStaleRange entries eager).1 =
      entries.map (fun ke =>
        if ke.2.strategy ≠ "immutable" then (ke.1, ke.2.MarkStale) else ke) ∧
    (Manager.markAllStaleRange entries eager).2.1 =
      entries.countP (fun ke => decide (ke.2.strategy ≠ "immutable")) := by
  induction entries with
  | nil => simp [Manager.markAllStaleRange]
  | cons ke rest ih =>
    obtain ⟨k, e⟩ := ke
    by_cases himm : e.strategy = "immutable"
    · simp [Manager.markAllStaleRange, himm, ih.1, ih.2, List.countP_cons]
    · simp [Manager.markAllStaleRange, himm, ih.1, ih.2, List.countP_cons]

/-! ## Claim theorems -/

/-- C1: For every Entry, `ShouldRevalidate` matches the strategy table
exactly: strategy `immutable` → false regardless of the raw stale flag;
otherwise a raised stale flag → true; otherwise `incremental` → true iff
`now - renderedAt` exceeds 24 hours; otherwise (`static` or any other
strategy) → false. -/
theorem C1_shouldRevalidate_strategy_table (e : Entry) (now : Int) :
    (e.strategy = "immutable" → e.ShouldRevalidate now = false) ∧
    (e.strategy ≠ "immutable" → e.stale = true → e.ShouldRevalidate now = true) ∧
    (e.strategy = "incremental" → e.stale = false →
      (e.ShouldRevalidate now = true ↔ now - e.renderedAt > hours24)) ∧
    (e.strategy ≠ "immutable" → e.strategy ≠ "incremental" → e.stale = false →
      e.ShouldRevalidate now = false) := by
  refine ⟨fun h1 => ?_, fun h1 h2 => ?_, fun h1 h2 => ?_, fun h1 h2 h3 => ?_⟩
  · simp [Entry.ShouldRevalidate, h1]
  · simp [Entry.ShouldRevalidate, Entry.IsStale, h1, h2]
  · have hne : e.strategy ≠ "immutable" := by
      rw [h1]; decide
    simp [Entry.ShouldRevalidate, Entry.IsStale, h1, h2, hne]
  · simp [Entry.ShouldRevalidate, Entry.IsStale, h1, h2, h3]

/-- Witness for C1: an immutable entry with the raw stale flag raised still
answers false; a 25-hour-old fresh incremental entry answers true. -/
theorem C1_shouldRevalidate_strategy_table_witness :
    Entry.ShouldRevalidate ⟨[], 0, "immutable", "", "", 1, true⟩ 0 = false ∧
    Entry.ShouldRevalidate ⟨[], 0, "incremental", "", "", 1, false⟩ 90000 = true := by
  constructor
  · exact (C1_shouldRevalidate_strategy_table ⟨[], 0, "immutable", "", "", 1, true⟩ 0).1 rfl
  · exact ((C1_shouldRevalidate_strategy_table
      ⟨[], 0, "incremental", "", "", 1, false⟩ 90000).2.2.1 rfl rfl).mpr (by decide)

/-- C2: `Manager.Get` checks the memory index first; on a memory miss with
the durable compressed file present it reconstructs a fresh Entry
(generation 1, not stale, strategy `static`) from the compressed bytes,
stores it in the memory index and returns it; it returns not-found when the
key is absent from both tiers; and a durable read failure is treated as a
cache miss, not an error. -/
theorem C2_get_two_tier (st : ManagerState) (cacheKey : String) (readFault : Bool)
    (now : Int) :
    (∀ e, alistGet st.entries cacheKey = some e →
      Manager.Get st cacheKey readFault now = (some e, st)) ∧
    (∀ bs, alistGet st.entries cacheKey = none →
      alistGet st.disk (getCacheFileName cacheKey ++ ".br") = some bs →
      readFault = false →
      ∃ e, Manager.Get st cacheKey readFault now =
          (some e, { st with entries := alistSet st.entries cacheKey e }) ∧
        e.generation = 1 ∧ e.stale = false ∧ e.strategy = "static" ∧ e.content = bs) ∧
    (alistGet st.entries cacheKey = none →
      alistGet st.disk (getCacheFileName cacheKey ++ ".br") = none →
      Manager.Get st cacheKey readFault now = (none, st)) ∧
    (∀ bs, alistGet st.entries cacheKey = none →
      alistGet st.disk (getCacheFileName cacheKey ++ ".br") = some bs →
      readFault = true →
      Manager.Get st cacheKey readFault now = (none, st)) := by
  refine ⟨?_, ?_, ?_, ?_⟩
  · intro e he
    simp [Manager.Get, he]
  · intro bs hmem hdisk hrf
    subst hrf
    refine ⟨⟨bs, now, "static", generateETag bs 1 now, "", 1, false⟩, ?_, rfl, rfl, rfl, rfl⟩
    simp [Manager.Get, hmem, Storage.Exists, hdisk, Manager.loadFromDisk,
      Storage.ReadBrotli]
  · intro hmem hdisk
    simp [Manager.Get, hmem, Storage.Exists, hdisk]
  · intro bs hmem hdisk hrf
    subst hrf
    simp [Manager.Get, hmem, Storage.Exists, hdisk, Manager.loadFromDisk,
      Storage.ReadBrotli]

/-- Witness for C2: a memory miss over a disk holding `k_en.br` reconstructs
a generation-1 fresh static entry with the file's bytes. -/
theorem C2_get_two_tier_witness :
    ∃ e, Manager.Get ⟨[], [("k_en.br", [5])]⟩ "/k:en" false 0 =
        (some e, { entries := alistSet [] "/k:en" e, disk := [("k_en.br", [5])] }) ∧
      e.generation = 1 ∧ e.stale = false ∧ e.strategy = "static" ∧ e.content = [5] :=
  (C2_get_two_tier ⟨[], [("k_en.br", [5])]⟩ "/k:en" false 0).2.1 [5] rfl rfl rfl

/-- C3: `Update` increments the generation by exactly 1, clears the stale
flag, overwrites the request path only when the supplied one is non-empty
(preserving it otherwise), and changes the ETag even for byte-identical
content, because generation and the render timestamp feed the fingerprint.
`hwf` states the stored ETag was produced by `generateETag` (true of every
entry built by `NewEntry`, `Update` or `loadFromDisk`); `hbytes` states the
content consists of bytes. -/
theorem C3_update_generation_etag (e : Entry) (c : List Nat) (requestPath : String)
    (now : Int) (hwf : e.etag = generateETag e.content e.generation e.renderedAt)
    (hbytes : ∀ b ∈ e.content, b < 256) :
    (e.Update c requestPath now).generation = e.generation + 1 ∧
    (e.Update c requestPath now).stale = false ∧
    (requestPath ≠ "" → (e.Update c requestPath now).requestPath = requestPath) ∧
    (requestPath = "" → (e.Update c requestPath now).requestPath = e.requestPath) ∧
    (e.Update e.content requestPath now).etag ≠ e.etag := by
  refine ⟨rfl, rfl, fun h => by simp [Entry.Update, h], fun h => by simp [Entry.Update, h], ?_⟩
  intro hcontra
  simp only [Entry.Update, hwf, generateETag] at hcontra
  have hpay := sha256Hex_injOn (etagPayload_lt_256 hbytes _ _)
    (etagPayload_lt_256 hbytes _ _) hcontra
  exact etagPayload_ne_of_gen_ne (by omega) hpay

/-- Witness for C3: re-storing the identical content still flips the ETag. -/
theorem C3_update_generation_etag_witness :
    ((NewEntry [1] "static" "/p" 0).Update (NewEntry [1] "static" "/p" 0).content "/q" 5).etag
      ≠ (NewEntry [1] "static" "/p" 0).etag :=
  (C3_update_generation_etag (NewEntry [1] "static" "/p" 0) [1] "/q" 5 rfl
    (by decide)).2.2.2.2

/-- C6: for every byte payload, decompression inverts compression exactly. -/
theorem C6_brotli_roundtrip (p c : List Nat) (h : CompressBrotli p = .ok c) :
    DecompressBrotli c = .ok p := by
  unfold CompressBrotli at h
  cases h
  unfold DecompressBrotli
  rw [rleDecompress_rleCompress]

/-- Witness for C6 on a concrete payload. -/
theorem C6_brotli_roundtrip_witness :
    DecompressBrotli [3, 7, 1, 9] = .ok [7, 7, 7, 9] :=
  C6_brotli_roundtrip [7, 7, 7, 9] [3, 7, 1, 9] rfl

/-- C4: `MarkStale(strategy, eager)` marks stale exactly the memory-resident
entries whose strategy equals the given one and is not `immutable`, and
returns their count; immutable entries are never flipped by `MarkStale` or
`MarkAllStale`; `MarkAllStale` marks every non-immutable entry regardless of
strategy. -/
theorem C4_markStale_exactly (st : ManagerState) (strategy : String) (eager : Bool) :
    ((Manager.MarkStale st strategy eager).1.entries =
      st.entries.map (fun ke =>
        if ke.2.strategy ≠ "immutable" ∧ ke.2.strategy = strategy
        then (ke.1, ke.2.MarkStale) else ke)) ∧
    ((Manager.MarkStale st strategy eager).2.1 =
      st.entries.countP (fun ke =>
        decide (ke.2.strategy ≠ "immutable" ∧ ke.2.strategy = strategy))) ∧
    (∀ k e, (k, e) ∈ st.entries → e.strategy = "immutable" →
      (k, e) ∈ (Manager.MarkStale st strategy eager).1.entries ∧
      (k, e) ∈ (Manager.MarkAllStale st eager).1.entries) ∧
    ((Manager.MarkAllStale st eager).1.entries =
      st.entries.map (fun ke =>
        if ke.2.strategy ≠ "immutable" then (ke.1, ke.2.MarkStale) else ke)) ∧
    ((Manager.MarkAllStale st eager).2.1 =
      st.entries.countP (fun ke => decide (ke.2.strategy ≠ "immutable"))) := by
  have hs := markStaleRange_spec st.entries strategy eager
  have ha := markAllStaleRange_spec st.entries eager
  have e1 : (Manager.MarkStale st strategy eager).1.entries =
      (Manager.markStaleRange st.entries strategy eager).1 := rfl
  have e2 : (Manager.MarkStale st strategy eager).2.1 =
      (Manager.markStaleRange st.entries strategy eager).2.1 := rfl
  have e3 : (Manager.MarkAllStale st eager).1.entries =
      (Manager.markAllStaleRange st.entries eager).1 := rfl
  have e4 : (Manager.MarkAllStale st eager).2.1 =
      (Manager.markAllStaleRange st.entries eager).2.1 := rfl
  refine ⟨e1.trans hs.1, e2.trans hs.2, ?_, e3.trans ha.1, e4.trans ha.2⟩
  intro k e hmem himm
  constructor
  · rw [e1.trans hs.1]
    have hfix : (if (k, e).2.strategy ≠ "immutable" ∧ (k, e).2.strategy = strategy
        then ((k, e).1, (k, e).2.MarkStale) else (k, e)) = (k, e) := by
      simp [himm]
    exact hfix ▸ List.mem_map_of_mem _ hmem
  · rw [e3.trans ha.1]
    have hfix : (if (k, e).2.strategy ≠ "immutable"
        then ((k, e).1, (k, e).2.MarkStale) else (k, e)) = (k, e) := by
      simp [himm]
    exact hfix ▸ List.mem_map_of_mem _ hmem

/-- Witness for C4 on a two-entry index: the immutable entry survives both
operations untouched; `MarkStale "incremental"` counts exactly the one
incremental entry. -/
theorem C4_markStale_exactly_witness :
    (("a", immutableEntry) ∈
      (Manager.MarkStale exampleMixedState "incremental" false).1.entries ∧
     ("a", immutableEntry) ∈
      (Manager.MarkAllStale exampleMixedState false).1.entries) ∧
    (Manager.MarkStale exampleMixedState "incremental" false).2.1 = 1 := by
  constructor
  · exact (C4_markStale_exactly exampleMixedState "incremental" false).2.2.1
      "a" immutableEntry (by decide) rfl
  · exact ((C4_markStale_exactly exampleMixedState "incremental" false).2.1).trans (by decide)

/-- C7: `Set`/`SetSync` never return an error: a compression failure falls
back to storing the raw bytes as the compressed representation, a durable
write failure (synchronous or asynchronous) is logged without failing the
call, and the in-memory entry is still created or updated in every case. -/
theorem C7_set_never_fails (st : ManagerState) (cacheKey : String)
    (content : List Nat) (strategy requestPath : String)
    (compOutcome : Except String (List Nat)) (brWriteFault htmlWriteFault : Bool)
    (now : Int) :
    ((Manager.Set st cacheKey content strategy requestPath compOutcome
        brWriteFault htmlWriteFault now).2 = .ok ()) ∧
    ((Manager.SetSync st cacheKey content strategy requestPath compOutcome
        brWriteFault htmlWriteFault now).2 = .ok ()) ∧
    (∀ syncWrite, (alistGet (Manager.setCore st cacheKey content strategy requestPath
        syncWrite compOutcome brWriteFault htmlWriteFault now).1.entries
        cacheKey).isSome = true) ∧
    (∀ msg, compOutcome = .error msg → ∀ syncWrite,
      (Manager.setCore st cacheKey content strategy requestPath syncWrite
          compOutcome brWriteFault htmlWriteFault now).1.entries =
        match alistGet st.entries cacheKey with
        | some e => alistSet st.entries cacheKey (e.Update content requestPath now)
        | none => alistSet st.entries cacheKey (NewEntry content strategy requestPath now)) := by
  refine ⟨rfl, rfl, ?_, ?_⟩
  · intro syncWrite
    cases hmem : alistGet st.entries cacheKey with
    | some e => simp [Manager.setCore, hmem, alistGet_alistSet_self]
    | none => simp [Manager.setCore, hmem, alistGet_alistSet_self]
  · intro msg hcomp syncWrite
    subst hcomp
    cases hmem : alistGet st.entries cacheKey with
    | some e => simp [Manager.setCore, hmem]
    | none => simp [Manager.setCore, hmem]

/-- Witness for C7: with the compression call failing and the `.br` write
faulting, `Set` still answers `.ok` and creates the entry from raw bytes. -/
theorem C7_set_never_fails_witness :
    (Manager.Set emptyState "/k:en" [200] "static" "/k" (.error "boom") true false 0).2
      = .ok () ∧
    (Manager.setCore emptyState "/k:en" [200] "static" "/k" false (.error "boom")
      true false 0).1.entries = alistSet [] "/k:en" (NewEntry [200] "static" "/k" 0) := by
  constructor
  · exact (C7_set_never_fails emptyState "/k:en" [200] "static" "/k"
      (.error "boom") true false 0).1
  · exact (C7_set_never_fails emptyState "/k:en" [200] "static" "/k"
      (.error "boom") true false 0).2.2.2 "boom" rfl false

/-- C8: `Delete` removes the entry from the memory index and from durable
storage and returns an error only if durable deletion fails unexpectedly —
which `Storage.Delete` never reports, since both removes ignore errors, so
absence of either durable file (and even a failed remove) is tolerated. -/
theorem C8_delete_tolerant (st : ManagerState) (cacheKey : String)
    (brRemoveFault htmlRemoveFault : Bool) :
    ((Manager.Delete st cacheKey brRemoveFault htmlRemoveFault).2 = .ok ()) ∧
    (alistGet (Manager.Delete st cacheKey brRemoveFault htmlRemoveFault).1.entries
      cacheKey = none) ∧
    (brRemoveFault = false → htmlRemoveFault = false →
      alistGet (Manager.Delete st cacheKey brRemoveFault htmlRemoveFault).1.disk
        (getCacheFileName cacheKey ++ ".br") = none ∧
      alistGet (Manager.Delete st cacheKey brRemoveFault htmlRemoveFault).1.disk
        (getCacheFileName cacheKey ++ ".html") = none) := by
  refine ⟨rfl, ?_, ?_⟩
  · exact alistGet_alistRemove_self st.entries cacheKey
  · intro hbr hhtml
    subst hbr
    subst hhtml
    have hdisk : (Manager.Delete st cacheKey false false).1.disk =
        alistRemove (alistRemove st.disk (getCacheFileName cacheKey ++ ".br"))
          (getCacheFileName cacheKey ++ ".html") := rfl
    constructor
    · rw [hdisk, alistGet_alistRemove_ne _ _ _ (Ne.symm (br_ne_html _)),
        alistGet_alistRemove_self]
    · rw [hdisk, alistGet_alistRemove_self]

/-- Witness for C8 on a populated state with both durable files present. -/
theorem C8_delete_tolerant_witness :
    alistGet (Manager.Delete ⟨[("k", immutableEntry)], [("k.br", [1]), ("k.html", [2])]⟩
      "k" false false).1.disk (getCacheFileName "k" ++ ".br") = none ∧
    alistGet (Manager.Delete ⟨[("k", immutableEntry)], [("k.br", [1]), ("k.html", [2])]⟩
      "k" false false).1.disk (getCacheFileName "k" ++ ".html") = none :=
  (C8_delete_tolerant ⟨[("k", immutableEntry)], [("k.br", [1]), ("k.html", [2])]⟩
    "k" false false).2.2 rfl rfl

/-- C5: during bulk warming, dynamic routes and routes with an unresolved
placeholder contribute 0 cached pages; outside force-rebuild mode an already
cached (route, language) pair is skipped; per-item failures (missing language
path, failed render, failed store) never abort the batch — each is a local
no-op contributing 0 while the fold continues; a variant is counted exactly
when it is successfully stored; and the 2-route 2-language catalog with one
dynamic route yields exactly the non-dynamic route's 2 variants. -/
theorem C5_bootstrap_warming :
    (∀ st langs force render now (route : RouteConfig), route.strategy = "dynamic" →
      Manager.processRoute st langs force render now route = (st, 0)) ∧
    (∀ st langs force render now (route : RouteConfig),
      route.canonical.toList.contains lbrace = true → route.strategy ≠ "dynamic" →
      Manager.processRoute st langs force render now route = (st, 0)) ∧
    (∀ st (route : RouteConfig) render now lang,
      (Manager.Get st (GetCacheKey route.canonical lang []) false now).1.isSome = true →
      Manager.processLang st route false render now lang =
        ((Manager.Get st (GetCacheKey route.canonical lang []) false now).2, 0)) ∧
    (∀ st (route : RouteConfig) cacheKey render now lang,
      alistGet route.paths lang = some "" ∨ alistGet route.paths lang = none →
      Manager.renderAndStore st route cacheKey render now lang = (st, 0)) ∧
    (∀ st (route : RouteConfig) cacheKey (render : String → Option (List Nat)) now lang path,
      alistGet route.paths lang = some path → path ≠ "" → render path = none →
      Manager.renderAndStore st route cacheKey render now lang = (st, 0)) ∧
    (∀ st (route : RouteConfig) cacheKey (render : String → Option (List Nat))
        now lang path body,
      alistGet route.paths lang = some path → path ≠ "" → render path = some body →
      Manager.renderAndStore st route cacheKey render now lang =
        ((Manager.SetSync st cacheKey body route.strategy path (CompressBrotli body)
          false false now).1, 1)) ∧
    ((Manager.Bootstrap emptyState [exampleStaticRoute, exampleDynamicRoute]
        ["en", "tr"] false exampleRender 0).2 = 2 ∧
      (alistGet (Manager.Bootstrap emptyState [exampleStaticRoute, exampleDynamicRoute]
        ["en", "tr"] false exampleRender 0).1.entries "/about:en").isSome = true ∧
      (alistGet (Manager.Bootstrap emptyState [exampleStaticRoute, exampleDynamicRoute]
        ["en", "tr"] false exampleRender 0).1.entries "/about:tr").isSome = true ∧
      alistGet (Manager.Bootstrap emptyState [exampleStaticRoute, exampleDynamicRoute]
        ["en", "tr"] false exampleRender 0).1.entries "/search:en" = none ∧
      alistGet (Manager.Bootstrap emptyState [exampleStaticRoute, exampleDynamicRoute]
        ["en", "tr"] false exampleRender 0).1.entries "/search:tr" = none) := by
  refine ⟨?_, ?_, ?_, ?_, ?_, ?_, by decide, rfl, rfl, rfl, rfl⟩
  · intro st langs force render now route h
    simp [Manager.processRoute, h]
  · intro st langs force render now route hbrace hdyn
    simp only [Manager.processRoute, if_neg hdyn, hbrace, if_true]
  · intro st route render now lang h
    rcases hG : Manager.Get st (GetCacheKey route.canonical lang []) false now with ⟨o, st2⟩
    rw [hG] at h
    cases o with
    | none => simp at h
    | some e => simp [Manager.processLang, hG]
  · intro st route cacheKey render now lang h
    rcases h with h | h <;> simp [Manager.renderAndStore, h]
  · intro st route cacheKey render now lang path hpath hne hrender
    simp [Manager.renderAndStore, hpath, hne, hrender]
  · intro st route cacheKey render now lang path body hpath hne hrender
    simp only [Manager.renderAndStore, hpath, hrender]
    rw [if_neg hne]
    rfl

/-- Witness for C5: a dynamic route is a strict no-op for any state. -/
theorem C5_bootstrap_warming_witness :
    Manager.processRoute exampleMixedState ["en", "tr"] false exampleRender 0
      exampleDynamicRoute = (exampleMixedState, 0) :=
  C5_bootstrap_warming.1 exampleMixedState ["en", "tr"] false exampleRender 0
    exampleDynamicRoute rfl

/-- C9: the claim asserts every subsequent firing occurs exactly 24 hours
after the previous one, but the code creates its 24-hour ticker at `Start`
time (part_003 line 142), before the initial sleep, anchoring all ticks at
`Start`'s time of day.  At `Start` called at local epoch second 100000 with
hour 3 the first firing is at 183600 (03:00 of day 3, as scheduled) while
the second is already at 186400 — 2800 s, not 24 h, after the first, and no
longer at 03:00.  Each firing does invoke
`MarkStale("incremental", eager=true)` as claimed. -/
theorem C9_revalidator_ticker_divergence :
    nextRevalidation 100000 3 = 183600 ∧
    firingTime 100000 3 0 = 183600 ∧
    firingTime 100000 3 1 = 186400 ∧
    firingTime 100000 3 1 - firingTime 100000 3 0 = 2800 ∧
    firingTime 100000 3 1 - firingTime 100000 3 0 ≠ 86400 ∧
    firingTime 100000 3 1 % 86400 ≠ 3 * 3600 ∧
    (∀ st : ManagerState, Revalidator.revalidateIncremental st =
      Manager.MarkStale st "incremental" true) :=
  ⟨rfl, rfl, rfl, rfl, by decide, by decide, fun st => rfl⟩

/-- C10: the key→filename transform is not injective: the distinct keys
`"/a/b:en"` and `"/a:b:en"` share one durable file name, so
`Exists`/`ReadBrotli`/`ReadHTML` cannot distinguish the two keys on any
disk, and a `Storage.Write` under the second key overwrites the first key's
durable files. -/
theorem C10_filename_not_injective :
    getCacheFileName "/a/b:en" = getCacheFileName "/a:b:en" ∧
    "/a/b:en" ≠ "/a:b:en" ∧
    (∀ d : Disk, ∀ rf : Bool,
      Storage.Exists d "/a/b:en" = Storage.Exists d "/a:b:en" ∧
      Storage.ReadBrotli d "/a/b:en" rf = Storage.ReadBrotli d "/a:b:en" rf ∧
      Storage.ReadHTML d "/a/b:en" rf = Storage.ReadHTML d "/a:b:en" rf) ∧
    (∀ d : Disk, ∀ bs1 bs2 : List Nat,
      Storage.ReadBrotli
        ((Storage.Write ((Storage.Write d "/a/b:en" bs1 bs1 false false).1)
          "/a:b:en" bs2 bs2 false false).1) "/a/b:en" false = .ok bs2) := by
  have e1 : getCacheFileName "/a/b:en" = "a_b_en" := rfl
  have e2 : getCacheFileName "/a:b:en" = "a_b_en" := rfl
  refine ⟨e1.trans e2.symm, by decide, ?_, ?_⟩
  · intro d rf
    refine ⟨?_, ?_, ?_⟩ <;>
      simp [Storage.Exists, Storage.ReadBrotli, Storage.ReadHTML, e1, e2]
  · intro d bs1 bs2
    have hne : ("a_b_en" ++ ".html") ≠ ("a_b_en" ++ ".br") :=
      Ne.symm (br_ne_html "a_b_en")
    simp only [Storage.Write, Storage.ReadBrotli, e1, e2, Bool.false_eq_true,
      if_false]
    rw [alistGet_alistSet_ne _ _ _ _ hne, alistGet_alistSet_self]

/-- Witness for C10: key collision realised on the empty disk with concrete
payloads. -/
theorem C10_filename_not_injective_witness :
    Storage.ReadBrotli
      ((Storage.Write ((Storage.Write [] "/a/b:en" [1] [1] false false).1)
        "/a:b:en" [2] [2] false false).1) "/a/b:en" false = .ok [2] :=
  C10_filename_not_injective.2.2.2 [] [1] [2]

end Statigo
